import Mathlib

/-
Shallow embedding of the repository-transfer core of the
HORNET-Storage/gitnestr-electron-sdk repository:
the receiver `BrowserGitBridge` (src/unnamed/part_005) and the sender
`GitBridge` (src/unnamed/part_008).

Modelling conventions:
- JS `Map`s are insertion-ordered association lists; `Map.set` replaces in
  place when the key is present and appends otherwise.
- Bytes are `Nat`; a `Uint8Array` is a `List Nat`.
- The receiver's asynchronous file writes are applied immediately: the
  states modelled are the states observed after awaiting all pending
  writes (`waitForPendingWrites`), which is deterministic because the
  modelled writes are pure.  The per-repository `pendingWrites` promise
  list is modelled as the list of (normalized path, written bytes) pairs
  of the writes that were scheduled.
-/

namespace Gitnestr

/-- Insertion-ordered association-list update, modelling JS `Map.set`:
replaces the value in place when the key is present (a JS `Map` holds at
most one entry per key, so replacing the first occurrence is exact),
appends otherwise. -/
def mapSet {α β : Type} [BEq α] : List (α × β) → α → β → List (α × β)
  | [], k, v => [(k, v)]
  | p :: m, k, v => if p.1 == k then (k, v) :: m else p :: mapSet m k v

/-- JS `Map.delete`. -/
def mapDelete {α β : Type} [BEq α] (m : List (α × β)) (k : α) : List (α × β) :=
  m.filter (fun p => !(p.1 == k))

/-- Boolean test that the first character list starts the second
(models JS `String.startsWith` / our path-containment checks). -/
def listStarts : List Char → List Char → Bool
  | [], _ => true
  | _ :: _, [] => false
  | a :: as, b :: bs => a == b && listStarts as bs

/-- Boolean test that `sub` occurs as a contiguous run inside the second list
(models a JS substring test, used to express "the error names the path"). -/
def containsSeq (sub : List Char) : List Char → Bool
  | [] => sub.isEmpty
  | c :: rest => listStarts sub (c :: rest) || containsSeq sub rest

/-- String-level substring test. -/
def strContains (hay sub : String) : Bool :=
  containsSeq sub.toList hay.toList

/-- `RepositoryId` from src/packages/browser-git-bridge/src/types/index.ts. -/
structure RepositoryId where
  ownerPubkey : String
  repoName : String
deriving Repr, DecidableEq

/-- `FileChunk` from the shared types. -/
structure FileChunk where
  path : String
  index : Nat
  totalChunks : Nat
  data : List Nat
deriving Repr, DecidableEq

/-- `TransferManifest` from the shared types. -/
structure TransferManifest where
  totalFiles : Nat
  files : List String
deriving Repr, DecidableEq

/-- `FileTransfer` from the shared types: the receiver-local per-path state. -/
structure FileTransfer where
  chunks : List (Nat × List Nat)
  totalChunks : Nat
  receivedChunks : Nat
  isComplete : Bool
deriving Repr, DecidableEq

/-- The mutable state of one `BrowserGitBridge` instance (part_005):
its four tracking maps (the completion-promise plumbing carries no data
and is omitted) plus the LightningFS contents it has written. -/
structure BrowserState where
  currentTransfers : List (String × List (String × FileTransfer))
  transferManifests : List (String × TransferManifest)
  pendingWrites : List (String × List (String × List Nat))
  fsFiles : List (String × List Nat)
  fsDirs : List String
deriving Repr, DecidableEq

/-- `BrowserGitBridge.getRepoKey`. -/
def getRepoKey (repoId : RepositoryId) : String :=
  repoId.ownerPubkey ++ ":" ++ repoId.repoName

/-- `BrowserGitBridge.getRepoPath`. -/
def getRepoPath (repoId : RepositoryId) : String :=
  "/" ++ repoId.ownerPubkey ++ ":" ++ repoId.repoName

/-- One-pass scan collapsing runs of `/`; the flag records whether the
previous character was a `/` (i.e. whether we are inside a run). -/
def collapseAux : Bool → List Char → List Char
  | _, [] => []
  | prevSlash, c :: rest =>
    if c = '/' then
      if prevSlash then collapseAux true rest
      else '/' :: collapseAux true rest
    else c :: collapseAux false rest

/-- Collapse every run of `/` characters to a single `/`
(the `replace(/\/+/g, '/')` step of `normalizeRepoPath`). -/
def collapseSlashes (l : List Char) : List Char :=
  collapseAux false l

/-- The `replace(/\\/g, '/')` step: backslashes become forward slashes. -/
def slashify (s : String) : String :=
  String.mk (s.toList.map (fun c => if c = '\\' then '/' else c))

/-- `BrowserGitBridge.normalizeRepoPath`.  `startsWith "/"` and the one-char
strip are evaluated on the character list. -/
def normalizeRepoPath (filePath : String) (repoId : RepositoryId) : String :=
  let repoBase := getRepoPath repoId
  let p1 := if listStarts ['/'] filePath.toList
            then String.mk (filePath.toList.drop 1) else filePath
  let p2 := slashify p1
  let p3 := String.mk (collapseSlashes p2.toList)
  repoBase ++ "/" ++ p3

/-- JS `split('/')` on a character list: separators split everywhere, empty
segments are kept (they are filtered by the caller, as in `ensureDir`). -/
def splitSlash : List Char → List (List Char)
  | [] => [[]]
  | c :: rest =>
    if c = '/' then [] :: splitSlash rest
    else
      match splitSlash rest with
      | [] => [[c]]
      | w :: ws => (c :: w) :: ws

/-- The `substring(0, lastIndexOf('/'))` step of `writeFile`. -/
def upToLastSlash (l : List Char) : List Char :=
  match l.reverse.dropWhile (fun c => !(c == '/')) with
  | [] => []
  | _ :: rest => rest.reverse

/-- The directory paths `ensureDir` creates for a given directory path:
`"/p1"`, `"/p1/p2"`, ... for the non-empty `/`-separated components. -/
def dirChain (parts : List String) : List String :=
  (parts.foldl
    (fun (acc : List String × String) part =>
      (acc.1 ++ [acc.2 ++ "/" ++ part], acc.2 ++ "/" ++ part))
    ([], "")).1

/-- `BrowserGitBridge.ensureDir`: creates every missing ancestor directory
(`mkdir` with `EEXIST` ignored). -/
def ensureDir (dirPath : String) (dirs : List String) : List String :=
  (dirChain (((splitSlash dirPath.toList).map (fun l => String.mk l)).filter
    (fun p => p ≠ ""))).foldl
    (fun ds p => if p ∈ ds then ds else ds ++ [p]) dirs

/-- Key order used by `writeFile`'s `.sort(([a], [b]) => a - b)`. -/
def chunkKeyLE (a b : Nat × List Nat) : Prop := a.1 ≤ b.1

instance : DecidableRel chunkKeyLE := fun a b => Nat.decLe a.1 b.1

instance : IsTotal (Nat × List Nat) chunkKeyLE := ⟨fun a b => Nat.le_total a.1 b.1⟩

instance : IsTrans (Nat × List Nat) chunkKeyLE := ⟨fun _ _ _ h h2 => Nat.le_trans h h2⟩

/-- Strict version of `chunkKeyLE`; on chunk maps with distinct indices the
sort is strictly increasing, which pins the sorted list uniquely. -/
def chunkKeyLT (a b : Nat × List Nat) : Prop := a.1 < b.1

instance : IsAntisymm (Nat × List Nat) chunkKeyLT :=
  ⟨fun _ _ h h2 => absurd (Nat.lt_trans h h2) (Nat.lt_irrefl _)⟩

/-- The byte assembly done inside `BrowserGitBridge.writeFile`: sort the
chunk map entries by index and concatenate the data in that order. -/
def writeFileData (chunks : List (Nat × List Nat)) : List Nat :=
  ((List.insertionSort chunkKeyLE chunks).map Prod.snd).flatten

/-- `BrowserGitBridge.writeFile` as a state update: ensure the parent
directories exist and write the assembled bytes at the normalized path. -/
def writeFile (s : BrowserState) (filePath : String) (chunks : List (Nat × List Nat))
    (repoId : RepositoryId) : BrowserState :=
  let np := normalizeRepoPath filePath repoId
  let dirPath := String.mk (upToLastSlash np.toList)
  { s with
    fsDirs := ensureDir dirPath s.fsDirs,
    fsFiles := mapSet s.fsFiles np (writeFileData chunks) }

/-- `BrowserGitBridge.receiveChunk` (part_005, lines 268-324), with the
scheduled write applied immediately (post-await semantics) and recorded in
`pendingWrites`. -/
def receiveChunk (s : BrowserState) (chunk : FileChunk) (repoId : RepositoryId) :
    BrowserState :=
  let repoKey := getRepoKey repoId
  let transfers := (s.currentTransfers.lookup repoKey).getD []
  let existingTransfer := transfers.lookup chunk.path
  let t0 := existingTransfer.getD
    { chunks := [], totalChunks := chunk.totalChunks, receivedChunks := 0, isComplete := false }
  let t1 : FileTransfer :=
    { t0 with
      chunks := mapSet t0.chunks chunk.index chunk.data,
      receivedChunks := t0.receivedChunks + 1 }
  if t1.receivedChunks = t1.totalChunks then
    let pw := (s.pendingWrites.lookup repoKey).getD []
    let s1 := writeFile s chunk.path t1.chunks repoId
    let t2 := { t1 with isComplete := true }
    { s1 with
      currentTransfers := mapSet s.currentTransfers repoKey (mapSet transfers chunk.path t2),
      pendingWrites := mapSet s.pendingWrites repoKey
        (pw ++ [(normalizeRepoPath chunk.path repoId, writeFileData t1.chunks)]) }
  else
    { s with
      currentTransfers := mapSet s.currentTransfers repoKey (mapSet transfers chunk.path t1) }

/-- `BrowserGitBridge.initializeRepo` (the state-tracking part). -/
def initializeRepo (s : BrowserState) (repoId : RepositoryId) : BrowserState :=
  let repoKey := getRepoKey repoId
  { s with
    fsDirs := ensureDir (getRepoPath repoId) s.fsDirs,
    currentTransfers := mapSet s.currentTransfers repoKey [],
    pendingWrites := mapSet s.pendingWrites repoKey [] }

/-- `BrowserGitBridge.setTransferManifest`. -/
def setTransferManifest (s : BrowserState) (manifest : TransferManifest)
    (repoId : RepositoryId) : BrowserState :=
  let repoKey := getRepoKey repoId
  { s with
    transferManifests := mapSet s.transferManifests repoKey manifest,
    currentTransfers := mapSet s.currentTransfers repoKey [] }

/-- `BrowserGitBridge.deleteRepository`: tracking-state eviction plus the
recursive delete of everything under the repository path. -/
def deleteRepository (s : BrowserState) (repoId : RepositoryId) : BrowserState :=
  let repoKey := getRepoKey repoId
  let root := getRepoPath repoId
  { currentTransfers := mapDelete s.currentTransfers repoKey,
    transferManifests := mapDelete s.transferManifests repoKey,
    pendingWrites := mapDelete s.pendingWrites repoKey,
    fsFiles := s.fsFiles.filter
      (fun kv => !(listStarts (root ++ "/").toList kv.1.toList)),
    fsDirs := s.fsDirs.filter
      (fun d => !(d == root) && !(listStarts (root ++ "/").toList d.toList)) }

/-- `BrowserGitBridge.isTransferComplete` (part_005, lines 177-193). -/
def isTransferComplete (s : BrowserState) (repoId : RepositoryId) : Bool :=
  let repoKey := getRepoKey repoId
  match s.transferManifests.lookup repoKey, s.currentTransfers.lookup repoKey with
  | some manifest, some transfers =>
    manifest.files.all (fun filePath =>
      match transfers.lookup filePath with
      | some transfer => transfer.isComplete
      | none => false)
  | _, _ => false

/-- The per-path body of `verifyTransfer`'s loop: a `stat` that can see a
written file or a created directory, then a `readFile` that succeeds on any
written file (the model filesystem has no unreadable files). -/
def verifyPathErrors (s : BrowserState) (filePath : String) (repoId : RepositoryId) :
    List String :=
  let np := normalizeRepoPath filePath repoId
  match s.fsFiles.lookup np with
  | some _ => []
  | none =>
    if np ∈ s.fsDirs then [filePath ++ " exists but is not a file"]
    else ["Failed to verify " ++ filePath ++ ": file does not exist"]

/-- `BrowserGitBridge.verifyTransfer` (part_005, lines 198-240), evaluated
after awaiting pending writes (already applied in this model); returns
`(success, errors)`. -/
def verifyTransfer (s : BrowserState) (repoId : RepositoryId) : Bool × List String :=
  let repoKey := getRepoKey repoId
  match s.transferManifests.lookup repoKey with
  | none => (false, ["No transfer manifest available"])
  | some manifest =>
    if isTransferComplete s repoId = false then (false, ["Transfer is not complete"])
    else
      let errors := manifest.files.flatMap (fun p => verifyPathErrors s p repoId)
      (errors.isEmpty, errors)

/-- The receiver's state before any call. -/
def emptyState : BrowserState := ⟨[], [], [], [], []⟩

/-- Deliver a list of chunks to `receiveChunk` in order. -/
def deliverChunks (s : BrowserState) (l : List FileChunk) (repoId : RepositoryId) :
    BrowserState :=
  l.foldl (fun st c => receiveChunk st c repoId) s

/-- The `FileTransfer` the receiver currently tracks for a path. -/
def lookupTransfer (s : BrowserState) (repoId : RepositoryId) (p : String) :
    Option FileTransfer :=
  ((s.currentTransfers.lookup (getRepoKey repoId)).getD []).lookup p

/-- The written files lying under a repository's root directory. -/
def filesUnder (s : BrowserState) (repoId : RepositoryId) : List (String × List Nat) :=
  s.fsFiles.filter (fun kv => listStarts (getRepoPath repoId ++ "/").toList kv.1.toList)

/-- The invariant relating the receiver's maps: every repository key with a
manifest also has a transfers table.  Every `BrowserGitBridge` method that
sets a manifest also sets the transfers table, so all reachable states
satisfy it. -/
def StateInv (s : BrowserState) : Prop :=
  ∀ k : String, (s.transferManifests.lookup k).isSome = true →
    (s.currentTransfers.lookup k).isSome = true

/-- A repository key containing no `/` character (true of every real
`ownerPubkey`/`repoName` pair, neither of which is a path). -/
def noSlashKey (k : String) : Bool :=
  k.toList.all (fun c => !(c == '/'))

/-- Repository id used by concrete witnesses. -/
def rW : RepositoryId := ⟨"owner", "repo"⟩

/-- A chunk of a two-chunk file, used twice to exhibit the duplicate-index
counter inflation. -/
def cDup : FileChunk := ⟨"f", 0, 2, [7]⟩

/-- Repository id of the C6 scenario. -/
def rC6 : RepositoryId := ⟨"o", "r"⟩

/-- Receiver state in which `a.txt` is fully transferred and written but
the manifested path `b.txt` was never sent. -/
def sC6 : BrowserState :=
  ⟨[("o:r", [("a.txt", ⟨[(0, [104, 105])], 1, 1, true⟩)])],
   [("o:r", ⟨2, ["a.txt", "b.txt"]⟩)],
   [("o:r", [("/o:r/a.txt", [104, 105])])],
   [("/o:r/a.txt", [104, 105])],
   ["/o:r"]⟩

/-- First id of the colliding pair: key `"a:b:c"`. -/
def rA8 : RepositoryId := ⟨"a", "b:c"⟩

/-- Second id of the colliding pair: also key `"a:b:c"`, yet a distinct id. -/
def rB8 : RepositoryId := ⟨"a:b", "c"⟩

/-- Receiver state holding one in-flight two-chunk transfer for path `"g"`,
used to witness that a later chunk cannot change the stored `totalChunks`. -/
def sC10 : BrowserState :=
  ⟨[("owner:repo", [("g", ⟨[(0, [1])], 2, 1, false⟩)])], [], [("owner:repo", [])], [], []⟩

/-- Receiver state with a one-file manifest whose file is complete. -/
def sC5 : BrowserState :=
  ⟨[("owner:repo", [("a", ⟨[(0, [1])], 1, 1, true⟩)])],
   [("owner:repo", ⟨1, ["a"]⟩)],
   [("owner:repo", [("/owner:repo/a", [1])])],
   [("/owner:repo/a", [1])],
   ["/owner:repo"]⟩

/- ------------------------------------------------------------------ -/
/- Sender model: `GitBridge` (src/unnamed/part_008).                   -/
/- ------------------------------------------------------------------ -/

mutual
/-- A directory entry of the host filesystem the sender reads.  The
mutual (rather than `List`-nested) children encoding keeps all recursion
over the tree structural, hence kernel-executable. -/
inductive FsEntry where
  | file (name : String) (data : List Nat)
  | dir (name : String) (entries : FsEntries)
deriving Repr

/-- The ordered entries `fs.readdir` returns for one directory. -/
inductive FsEntries where
  | nil
  | cons (e : FsEntry) (rest : FsEntries)
deriving Repr
end

/-- Build `FsEntries` from a list literal. -/
def entriesOf : List FsEntry → FsEntries
  | [] => .nil
  | e :: es => .cons e (entriesOf es)

/-- The host filesystem as seen from the constructor's `repoPath`: whether
that path exists and is a directory, its entries, and whether it is
readable (`fs.access R_OK`). -/
structure HostFs where
  rootExists : Bool
  rootIsDir : Bool
  entries : FsEntries
  readable : Bool

/-- `GitBridgeOptions` of the electron-git-bridge package. -/
structure GitBridgeOptions where
  maxRepoSize : Nat
  chunkSize : Nat
  excludePatterns : List String
  includeGitHistory : Bool
deriving Repr

/-- `DEFAULT_OPTIONS` of part_008. -/
def DEFAULT_OPTIONS : GitBridgeOptions :=
  ⟨1024 * 1024 * 1024, 1024 * 1024, ["node_modules/**"], true⟩

/-- Tokens of the anchored regex `matchGlobPattern` builds: `**` becomes
`.*`, a single `*` becomes `[^/]*`, and every other character is matched
literally (the source escapes `.`, and the modelled patterns contain no
other regex metacharacter). -/
inductive GTok where
  | lit (c : Char)
  | one
  | many

/-- Tokenize a glob pattern (`**` before `*`, as the source's replacement
order does). -/
def parseGlob : List Char → List GTok
  | [] => []
  | '*' :: '*' :: rest => .many :: parseGlob rest
  | '*' :: rest => .one :: parseGlob rest
  | c :: rest => .lit c :: parseGlob rest

/-- The characters the JS regex `.` does not match (line terminators). -/
def isLineTerm (c : Char) : Bool :=
  c == Char.ofNat 10 || c == Char.ofNat 13 ||
  c == Char.ofNat 0x2028 || c == Char.ofNat 0x2029

/-- Backtracking matcher for the tokenized anchored regex.  The fuel only
makes the recursion structural (each call decreases it while the real
measure `tokens + input` also decreases); it is always sufficient at the
`matchGlobPattern` entry point, so the `0` case is unreachable. -/
def globMatchAux : Nat → List GTok → List Char → Bool
  | 0, _, _ => false
  | _ + 1, [], s => s.isEmpty
  | fuel + 1, .lit c :: ts, s =>
    match s with
    | [] => false
    | x :: xs => c == x && globMatchAux fuel ts xs
  | fuel + 1, .one :: ts, s =>
    globMatchAux fuel ts s ||
      (match s with
       | [] => false
       | x :: xs => !(x == '/') && globMatchAux fuel (.one :: ts) xs)
  | fuel + 1, .many :: ts, s =>
    globMatchAux fuel ts s ||
      (match s with
       | [] => false
       | x :: xs => !(isLineTerm x) && globMatchAux fuel (.many :: ts) xs)

/-- `GitBridge.matchGlobPattern`. -/
def matchGlobPattern (filePath pattern : String) : Bool :=
  let ts := parseGlob pattern.toList
  globMatchAux (ts.length + filePath.toList.length + 1) ts filePath.toList

/-- `path.join(relativePath, entry.name)` for the POSIX relative paths the
walk builds. -/
def joinRel (relPath name : String) : String :=
  if relPath = "" then name else relPath ++ "/" ++ name

mutual
/-- One entry of `GitBridge.listFilesRecursive`: a file is collected with
its bytes; a directory is recursed into unless it is named `node_modules`
— the only name the walk ever skips (`includeGitHistory` is never
consulted). -/
def filesOfEntry (relPath : String) : FsEntry → List (String × List Nat)
  | .file name data => [(slashify (joinRel relPath name), data)]
  | .dir name sub =>
    if name = "node_modules" then [] else filesOfEntries (joinRel relPath name) sub

/-- `GitBridge.listFilesRecursive` over one directory's entries. -/
def filesOfEntries (relPath : String) : FsEntries → List (String × List Nat)
  | .nil => []
  | .cons e es => filesOfEntry relPath e ++ filesOfEntries relPath es
end

/-- `GitBridge.listFiles`: the recursive walk filtered by
`excludePatterns`; each result is paired with the file's bytes (the source
re-reads the bytes by path from the unchanged tree). -/
def listFiles (repo : HostFs) (opts : GitBridgeOptions) : List (String × List Nat) :=
  (filesOfEntries "" repo.entries).filter
    (fun f => !(opts.excludePatterns.any (fun pat => matchGlobPattern f.1 pat)))

/-- `GitBridge.getRepoSize`: summed sizes of the non-excluded files. -/
def getRepoSize (repo : HostFs) (opts : GitBridgeOptions) : Nat :=
  ((listFiles repo opts).map (fun f => f.2.length)).sum

/-- Outcome of `fs.stat(path.join(repoPath, '.git'))`: `none` when no
top-level entry named `.git` exists, otherwise whether it is a directory. -/
def statGitEntry : FsEntries → Option Bool
  | .nil => none
  | .cons (.file n _) es => if n = ".git" then some false else statGitEntry es
  | .cons (.dir n _) es => if n = ".git" then some true else statGitEntry es

/-- The `GitErrorCode` values reachable in the modelled paths. -/
inductive GitErrorCode where
  | INVALID_REPOSITORY
  | TRANSFER_ERROR
  | INTERNAL_ERROR
deriving Repr, DecidableEq

/-- `ValidationResult` (the `errors` field defaults to empty when valid). -/
structure ValidationResult where
  isValid : Bool
  errors : List String
deriving Repr, DecidableEq

/-- `GitBridge.validateRepo` (part_008, lines 34-89).  A nonexistent path
makes the initial `fs.stat` throw, which the outer catch rethrows as an
internal error; each failing check returns its single error immediately. -/
def validateRepo (repo : HostFs) (opts : GitBridgeOptions) :
    Except GitErrorCode ValidationResult :=
  if !repo.rootExists then .error .INTERNAL_ERROR
  else if !repo.rootIsDir then .ok ⟨false, ["Path is not a directory"]⟩
  else
    match statGitEntry repo.entries with
    | none => .ok ⟨false, ["Path is not a git repository"]⟩
    | some false => .ok ⟨false, ["Path is not a git repository"]⟩
    | some true =>
      if getRepoSize repo opts > opts.maxRepoSize then
        .ok ⟨false, ["Repository size (" ++ toString (getRepoSize repo opts)
          ++ " bytes) exceeds maximum allowed size ("
          ++ toString opts.maxRepoSize ++ " bytes)"]⟩
      else if !repo.readable then .ok ⟨false, ["Insufficient read permissions"]⟩
      else .ok ⟨true, []⟩

/-- Successive `chunkSize`-byte reads of `streamRepository`'s inner loop;
the loop stops at the first zero-byte read.  The byte-count fuel only makes
the recursion structural and is exactly sufficient. -/
def chunkSlicesAux (C : Nat) : Nat → List Nat → List (List Nat)
  | 0, _ => []
  | _, [] => []
  | fuel + 1, d => d.take C :: chunkSlicesAux C fuel (d.drop C)

/-- The data slices `streamRepository` reads for one file: none when the
file is empty or `chunkSize` is zero (the very first read returns zero
bytes), else the successive `chunkSize`-byte slices. -/
def chunkSlices (C : Nat) (data : List Nat) : List (List Nat) :=
  if C = 0 then [] else chunkSlicesAux C data.length data

/-- `Math.ceil(stats.size / chunkSize)` for positive `chunkSize`; with a
zero `chunkSize` no chunk carrying the value is ever emitted. -/
def totalChunksOf (C size : Nat) : Nat :=
  if C = 0 then 0 else (size + C - 1) / C

/-- The chunk messages for one file: ascending indices starting at `i`,
each carrying the same `totalChunks`. -/
def fileChunksAux (p : String) (total : Nat) : Nat → List (List Nat) → List FileChunk
  | _, [] => []
  | i, d :: ds => ⟨p, i, total, d⟩ :: fileChunksAux p total (i + 1) ds

/-- All chunk messages `streamRepository` emits for one file. -/
def fileChunks (C : Nat) (p : String) (data : List Nat) : List FileChunk :=
  fileChunksAux p (totalChunksOf C data.length) 0 (chunkSlices C data)

/-- The three message shapes `streamRepository` yields. -/
inductive StreamMsg where
  | manifest (m : TransferManifest)
  | chunk (c : FileChunk)
  | complete
deriving Repr, DecidableEq

/-- `GitBridge.makeRelativePath`: backslashes to forward slashes. -/
def makeRelativePath (filePath : String) : String :=
  slashify filePath

/-- `GitBridge.streamRepository` (part_008, lines 166-227): the yielded
message sequence paired with the error aborting the generator, if any
(`none` when it runs to completion).  Validation failures raise before
anything is yielded; the modelled file reads cannot fail, so no later
abort occurs. -/
def streamRepository (repo : HostFs) (opts : GitBridgeOptions) :
    List StreamMsg × Option GitErrorCode :=
  match validateRepo repo opts with
  | .error e => ([], some e)
  | .ok v =>
    if v.isValid = false then ([], some .INVALID_REPOSITORY)
    else
      let files := listFiles repo opts
      ([.manifest ⟨files.length, files.map (fun f => makeRelativePath f.1)⟩]
        ++ files.flatMap (fun f =>
            (fileChunks opts.chunkSize (makeRelativePath f.1) f.2).map .chunk)
        ++ [.complete], none)

/-- Is this stream message a chunk for the given path? -/
def isChunkFor (p : String) : StreamMsg → Bool
  | .chunk c => c.path == p
  | _ => false

/-- The files listed by a stream's leading manifest message, if any. -/
def headManifestFiles : List StreamMsg → List String
  | .manifest m :: _ => m.files
  | _ => []

/-- Valid repository containing a zero-byte file (for claim C3). -/
def repoC3 : HostFs :=
  ⟨true, true, entriesOf [.dir ".git" (entriesOf [.file "HEAD" [114]]),
    .file "empty.txt" []], true⟩

/-- Valid two-file repository (shape witness for claim C4). -/
def repoC4 : HostFs :=
  ⟨true, true, entriesOf [.dir ".git" (entriesOf [.file "HEAD" [104]]),
    .file "b.txt" [98, 99]], true⟩

/-- Repository failing three validation checks at once: no `.git`
directory, size above `optsC7.maxRepoSize`, and unreadable. -/
def repoC7 : HostFs :=
  ⟨true, true, entriesOf [.file "big.bin" [0, 0, 0]], false⟩

/-- Options making `repoC7` oversized. -/
def optsC7 : GitBridgeOptions := { DEFAULT_OPTIONS with maxRepoSize := 1 }

/-- Valid repository with a `.git` directory (for claim C9). -/
def repoC9 : HostFs :=
  ⟨true, true, entriesOf [.dir ".git" (entriesOf [.file "HEAD" [104]]),
    .file "a.txt" [97]], true⟩

/-- Options explicitly excluding git history. -/
def optsC9 : GitBridgeOptions := { DEFAULT_OPTIONS with includeGitHistory := false }

/- ------------------------------------------------------------------ -/
/- Supporting lemmas about the association-list model of JS `Map`.     -/
/- ------------------------------------------------------------------ -/

theorem lookup_mapSet {α β : Type} [BEq α] [LawfulBEq α]
    (m : List (α × β)) (k k' : α) (v : β) :
    (mapSet m k' v).lookup k = if k == k' then some v else m.lookup k := by
  induction m with
  | nil =>
    cases h : (k == k') <;> simp [mapSet, List.lookup, h]
  | cons p m ih =>
    by_cases hpk : p.1 = k'
    · have hb : (p.1 == k') = true := beq_iff_eq.mpr hpk
      by_cases hk : k = k'
      · have hkb : (k == k') = true := beq_iff_eq.mpr hk
        simp [mapSet, hb, List.lookup, hkb]
      · have hkb : (k == k') = false := beq_eq_false_iff_ne.mpr hk
        have hkp : (k == p.1) = false := beq_eq_false_iff_ne.mpr (by rw [hpk]; exact hk)
        simp [mapSet, hb, List.lookup, hkb, hkp]
    · have hb : (p.1 == k') = false := beq_eq_false_iff_ne.mpr hpk
      by_cases hkp : k = p.1
      · have hk : (k == k') = false := beq_eq_false_iff_ne.mpr (by rw [hkp]; exact hpk)
        have hkpb : (k == p.1) = true := beq_iff_eq.mpr hkp
        simp [mapSet, hb, List.lookup, hk, hkpb]
      · have hkpb : (k == p.1) = false := beq_eq_false_iff_ne.mpr hkp
        simp [mapSet, hb, List.lookup, hkpb, ih]

theorem mapSet_of_not_mem {α β : Type} [BEq α] [LawfulBEq α]
    (m : List (α × β)) (k : α) (v : β) (h : k ∉ m.map Prod.fst) :
    mapSet m k v = m ++ [(k, v)] := by
  induction m with
  | nil => simp [mapSet]
  | cons p m ih =>
    simp only [List.map_cons, List.mem_cons, not_or] at h
    have hb : (p.1 == k) = false := beq_eq_false_iff_ne.mpr (fun hk => h.1 hk.symm)
    simp [mapSet, hb, ih h.2]

theorem lookup_mapDelete {α β : Type} [BEq α] [LawfulBEq α]
    (m : List (α × β)) (k k' : α) :
    (mapDelete m k').lookup k = if k == k' then none else m.lookup k := by
  induction m with
  | nil => cases h : (k == k') <;> simp [mapDelete, List.lookup, h]
  | cons p m ih =>
    by_cases hpk : p.1 = k'
    · have hb : (p.1 == k') = true := beq_iff_eq.mpr hpk
      have hdel : mapDelete (p :: m) k' = mapDelete m k' := by
        simp [mapDelete, List.filter_cons, hb]
      rw [hdel, ih]
      by_cases hk : k = k'
      · simp [beq_iff_eq.mpr hk]
      · have hkb : (k == k') = false := beq_eq_false_iff_ne.mpr hk
        have hkp : (k == p.1) = false := beq_eq_false_iff_ne.mpr (by rw [hpk]; exact hk)
        simp [hkb, List.lookup, hkp]
    · have hb : (p.1 == k') = false := beq_eq_false_iff_ne.mpr hpk
      have hdel : mapDelete (p :: m) k' = p :: mapDelete m k' := by
        simp [mapDelete, List.filter_cons, hb]
      rw [hdel]
      by_cases hkp : k = p.1
      · have hk : (k == k') = false := beq_eq_false_iff_ne.mpr (by rw [hkp]; exact hpk)
        have hkpb : (k == p.1) = true := beq_iff_eq.mpr hkp
        simp [List.lookup, hkpb, hk]
      · have hkpb : (k == p.1) = false := beq_eq_false_iff_ne.mpr hkp
        simp [List.lookup, hkpb, ih]

theorem filter_mapSet_of_pred_false {β : Type} (m : List (String × β)) (k : String)
    (v : β) (pred : String → Bool) (h : pred k = false) :
    (mapSet m k v).filter (fun kv => pred kv.1) = m.filter (fun kv => pred kv.1) := by
  induction m with
  | nil => simp [mapSet, List.filter, h]
  | cons p m ih =>
    by_cases hpk : p.1 = k
    · have hb : (p.1 == k) = true := beq_iff_eq.mpr hpk
      have hp : pred p.1 = false := by rw [hpk]; exact h
      simp [mapSet, hb, List.filter_cons, h, hp]
    · have hb : (p.1 == k) = false := beq_eq_false_iff_ne.mpr hpk
      simp only [mapSet, hb, if_false, List.filter_cons]
      cases hp : pred p.1 <;> simp [hp, ih]

theorem listStarts_key_ne (kb ka rest : List Char)
    (hb : kb.all (fun c => !(c == '/')) = true)
    (ha : ka.all (fun c => !(c == '/')) = true)
    (hne : kb ≠ ka) :
    listStarts (kb ++ ['/']) (ka ++ '/' :: rest) = false := by
  induction kb generalizing ka with
  | nil =>
    cases ka with
    | nil => exact absurd rfl hne
    | cons a ka' =>
      simp only [List.all_cons, Bool.and_eq_true] at ha
      simp only [List.nil_append, List.cons_append, listStarts]
      have : ('/' == a) = false := by
        cases h : ('/' == a) with
        | true => exact absurd (beq_iff_eq.mp h) (fun hh => by simp [← hh] at ha)
        | false => rfl
      simp [this]
  | cons b kb' ih =>
    simp only [List.all_cons, Bool.and_eq_true] at hb
    cases ka with
    | nil =>
      simp only [List.cons_append, List.nil_append, listStarts]
      have : (b == '/') = false := by simpa using hb.1
      simp [this]
    | cons a ka' =>
      simp only [List.all_cons, Bool.and_eq_true] at ha
      simp only [List.cons_append, listStarts]
      by_cases hba : b = a
      · subst hba
        have : kb' ≠ ka' := fun h => hne (by rw [h])
        simp [ih ka' hb.2 ha.2 this]
      · simp [beq_eq_false_iff_ne.mpr hba]

theorem getRepoPath_toList (r : RepositoryId) :
    (getRepoPath r).toList = '/' :: (getRepoKey r).toList := by
  simp [getRepoPath, getRepoKey, String.toList, String.data_append]

/- ------------------------------------------------------------------ -/
/- Invariant preservation: every receiver operation keeps `StateInv`.  -/
/- ------------------------------------------------------------------ -/

theorem stateInv_emptyState : StateInv emptyState := by
  intro k h
  simp [emptyState, List.lookup] at h

theorem stateInv_initializeRepo (s : BrowserState) (r : RepositoryId)
    (h : StateInv s) : StateInv (initializeRepo s r) := by
  intro k hm
  unfold initializeRepo at hm ⊢
  dsimp only at hm ⊢
  rw [lookup_mapSet]
  by_cases hk : k = getRepoKey r
  · simp [beq_iff_eq.mpr hk]
  · simp only [beq_eq_false_iff_ne.mpr hk, if_false]
    exact h k hm

theorem stateInv_setTransferManifest (s : BrowserState) (m : TransferManifest)
    (r : RepositoryId) (h : StateInv s) : StateInv (setTransferManifest s m r) := by
  intro k hm
  unfold setTransferManifest at hm ⊢
  dsimp only at hm ⊢
  rw [lookup_mapSet]
  by_cases hk : k = getRepoKey r
  · simp [beq_iff_eq.mpr hk]
  · simp only [beq_eq_false_iff_ne.mpr hk, if_false]
    rw [lookup_mapSet] at hm
    simp only [beq_eq_false_iff_ne.mpr hk, if_false] at hm
    exact h k hm

theorem stateInv_receiveChunk (s : BrowserState) (c : FileChunk) (r : RepositoryId)
    (h : StateInv s) : StateInv (receiveChunk s c r) := by
  intro k hm
  unfold receiveChunk writeFile at hm ⊢
  dsimp only at hm ⊢
  split at hm <;> split <;> dsimp only at hm ⊢ <;>
    (rw [lookup_mapSet]
     by_cases hk : k = getRepoKey r
     · simp [beq_iff_eq.mpr hk]
     · simp only [beq_eq_false_iff_ne.mpr hk, if_false]
       exact h k hm)

theorem stateInv_deleteRepository (s : BrowserState) (r : RepositoryId)
    (h : StateInv s) : StateInv (deleteRepository s r) := by
  intro k hm
  unfold deleteRepository at hm ⊢
  dsimp only at hm ⊢
  rw [lookup_mapDelete] at hm ⊢
  by_cases hk : k = getRepoKey r
  · simp [beq_iff_eq.mpr hk] at hm
  · simp only [beq_eq_false_iff_ne.mpr hk, if_false] at hm ⊢
    exact h k hm

/- ------------------------------------------------------------------ -/
/- Claim theorems (receiver side).                                     -/
/- ------------------------------------------------------------------ -/

/-- Claim C1: `receiveChunk` increments `receivedChunks` on every call even
when the chunk's index was already present in the chunk map, so there is a
delivery sequence with a duplicate index for one path whose counter reaches
`totalChunks` and schedules the assembled-file write while a distinct index
in `0..totalChunks-1` is still absent from the chunk map. -/
theorem receiveChunk_duplicate_premature_write :
    ∃ (repoId : RepositoryId) (l : List FileChunk) (p : String) (j : Nat)
      (t : FileTransfer),
      (¬ (l.map FileChunk.index).Nodup) ∧
      (∀ c ∈ l, c.path = p) ∧
      lookupTransfer (deliverChunks emptyState l repoId) repoId p = some t ∧
      t.receivedChunks = t.totalChunks ∧
      ((deliverChunks emptyState l repoId).pendingWrites.lookup
        (getRepoKey repoId)).getD [] ≠ [] ∧
      j < t.totalChunks ∧
      t.chunks.lookup j = none := by
  refine ⟨rW, [cDup, cDup], "f", 1, ⟨[(0, [7])], 2, 2, true⟩,
    ?_, ?_, ?_, ?_, ?_, ?_, ?_⟩ <;> decide

/-- Claim C10: the completion threshold of a path's `FileTransfer` is fixed
by the first chunk received for that path: a later chunk for the same path,
whatever `totalChunks` value it carries, leaves the stored `totalChunks`
unchanged, and the file write is scheduled exactly when the previously
stored counter plus one reaches the stored threshold. -/
theorem receiveChunk_totalChunks_fixed (s : BrowserState) (repoId : RepositoryId)
    (c : FileChunk) (t : FileTransfer)
    (ht : lookupTransfer s repoId c.path = some t) :
    ∃ t', lookupTransfer (receiveChunk s c repoId) repoId c.path = some t' ∧
      t'.totalChunks = t.totalChunks ∧
      (((receiveChunk s c repoId).pendingWrites.lookup (getRepoKey repoId)).getD []).length
        = ((s.pendingWrites.lookup (getRepoKey repoId)).getD []).length
          + (if t.receivedChunks + 1 = t.totalChunks then 1 else 0) := by
  unfold lookupTransfer at ht ⊢
  unfold receiveChunk writeFile
  dsimp only
  rw [ht]
  dsimp only [Option.getD_some]
  by_cases hc : t.receivedChunks + 1 = t.totalChunks
  · rw [if_pos hc, if_pos hc]
    refine ⟨⟨mapSet t.chunks c.index c.data, t.totalChunks,
      t.receivedChunks + 1, true⟩, ?_, rfl, ?_⟩
    · dsimp only
      rw [lookup_mapSet]
      simp only [beq_self_eq_true, if_true, Option.getD_some]
      rw [lookup_mapSet]
      simp [beq_self_eq_true]
    · dsimp only
      rw [lookup_mapSet]
      simp [beq_self_eq_true]
  · rw [if_neg hc, if_neg hc]
    refine ⟨⟨mapSet t.chunks c.index c.data, t.totalChunks,
      t.receivedChunks + 1, t.isComplete⟩, ?_, rfl, ?_⟩
    · dsimp only
      rw [lookup_mapSet]
      simp only [beq_self_eq_true, if_true, Option.getD_some]
      rw [lookup_mapSet]
      simp [beq_self_eq_true]
    · simp

/-- Witness for C10: a third chunk for path `"g"` carrying the bogus
`totalChunks = 99` neither changes the stored threshold `2` nor the write
trigger condition. -/
theorem receiveChunk_totalChunks_fixed_witness :
    ∃ t', lookupTransfer (receiveChunk sC10 ⟨"g", 1, 99, [2]⟩ rW) rW "g" = some t' ∧
      t'.totalChunks = (⟨[(0, [1])], 2, 1, false⟩ : FileTransfer).totalChunks ∧
      (((receiveChunk sC10 ⟨"g", 1, 99, [2]⟩ rW).pendingWrites.lookup
          (getRepoKey rW)).getD []).length
        = ((sC10.pendingWrites.lookup (getRepoKey rW)).getD []).length
          + (if (⟨[(0, [1])], 2, 1, false⟩ : FileTransfer).receivedChunks + 1
              = (⟨[(0, [1])], 2, 1, false⟩ : FileTransfer).totalChunks then 1 else 0) := by
  exact receiveChunk_totalChunks_fixed sC10 rW ⟨"g", 1, 99, [2]⟩
    ⟨[(0, [1])], 2, 1, false⟩ (by decide)

/-- Claim C5: `isTransferComplete` returns true iff a manifest is set for
the repository and every path listed in it has a `FileTransfer` whose
`isComplete` flag is true; false whenever no manifest is set or any
manifested path lacks a completed `FileTransfer`.  The hypothesis is the
map invariant every reachable receiver state satisfies (see the
`stateInv_*` lemmas). -/
theorem isTransferComplete_iff (s : BrowserState) (repoId : RepositoryId)
    (hinv : StateInv s) :
    isTransferComplete s repoId = true ↔
      ∃ m, s.transferManifests.lookup (getRepoKey repoId) = some m ∧
        ∀ p ∈ m.files, ∃ t, lookupTransfer s repoId p = some t ∧
          t.isComplete = true := by
  unfold isTransferComplete lookupTransfer
  dsimp only
  cases hm : s.transferManifests.lookup (getRepoKey repoId) with
  | none =>
    constructor
    · intro h
      cases htr : s.currentTransfers.lookup (getRepoKey repoId) <;>
        rw [htr] at h <;> exact absurd h (by simp)
    · rintro ⟨m, hm2, -⟩
      exact absurd hm2 (by simp)
  | some m =>
    have hsome := hinv (getRepoKey repoId) (by rw [hm]; rfl)
    cases htr : s.currentTransfers.lookup (getRepoKey repoId) with
    | none => rw [htr] at hsome; exact absurd hsome (by simp)
    | some transfers =>
      simp only [Option.getD_some]
      constructor
      · intro h
        refine ⟨m, rfl, ?_⟩
        intro p hp
        have hall := List.all_eq_true.mp h p hp
        cases hl : transfers.lookup p with
        | none => rw [hl] at hall; exact absurd hall (by simp)
        | some t =>
          rw [hl] at hall
          exact ⟨t, rfl, hall⟩
      · rintro ⟨m', hm', hcomp⟩
        injection hm' with hmm
        subst hmm
        apply List.all_eq_true.mpr
        intro p hp
        obtain ⟨t, hlt, hct⟩ := hcomp p hp
        rw [hlt]
        exact hct

/-- Witness for C5 at a concrete completed one-file transfer. -/
theorem isTransferComplete_iff_witness :
    isTransferComplete sC5 rW = true ↔
      ∃ m, sC5.transferManifests.lookup (getRepoKey rW) = some m ∧
        ∀ p ∈ m.files, ∃ t, lookupTransfer sC5 rW p = some t ∧
          t.isComplete = true := by
  apply isTransferComplete_iff sC5 rW
  intro k h
  cases hb : (k == "owner:repo") with
  | false => simp [sC5, List.lookup, hb] at h
  | true =>
    have hk : k = "owner:repo" := beq_iff_eq.mp hb
    subst hk
    decide

/-- Counterexample to claim C6: in `sC6` the manifested path `b.txt` was
never sent while `a.txt` is fully transferred and written, yet the single
error `verifyTransfer` returns is the fixed string
`"Transfer is not complete"`, which does not name `b.txt`. -/
theorem verifyTransfer_missing_path_not_named :
    verifyTransfer sC6 rC6 = (false, ["Transfer is not complete"]) ∧
    (∀ e ∈ (verifyTransfer sC6 rC6).2, strContains e "b.txt" = false) ∧
    sC6.transferManifests.lookup (getRepoKey rC6) = some ⟨2, ["a.txt", "b.txt"]⟩ ∧
    lookupTransfer sC6 rC6 "b.txt" = none ∧
    (lookupTransfer sC6 rC6 "a.txt").any (fun t => t.isComplete) = true ∧
    sC6.fsFiles.lookup (normalizeRepoPath "a.txt" rC6) = some [104, 105] := by
  refine ⟨?_, ?_, ?_, ?_, ?_, ?_⟩ <;> decide

/-- Claim C6 as amended: when a manifested path was never sent (no
`FileTransfer` exists for it) while every other manifested path is fully
transferred, `verifyTransfer` returns `success: false` with exactly one
error, but that error is the fixed string `"Transfer is not complete"`; it
does not name the missing path. -/
theorem verifyTransfer_missing_path (s : BrowserState) (repoId : RepositoryId)
    (m : TransferManifest) (p : String)
    (hm : s.transferManifests.lookup (getRepoKey repoId) = some m)
    (hp : p ∈ m.files)
    (hnone : lookupTransfer s repoId p = none)
    (hothers : ∀ q ∈ m.files, q ≠ p →
      (lookupTransfer s repoId q).any (fun t => t.isComplete) = true) :
    verifyTransfer s repoId = (false, ["Transfer is not complete"]) := by
  have hcomp : isTransferComplete s repoId = false := by
    unfold isTransferComplete
    dsimp only
    rw [hm]
    cases htr : s.currentTransfers.lookup (getRepoKey repoId) with
    | none => rfl
    | some transfers =>
      unfold lookupTransfer at hnone
      rw [htr] at hnone
      simp only [Option.getD_some] at hnone
      apply Bool.eq_false_iff.mpr
      intro hall
      have := List.all_eq_true.mp hall p hp
      rw [hnone] at this
      exact absurd this (by simp)
  unfold verifyTransfer
  dsimp only
  rw [hm]
  dsimp only
  rw [if_pos hcomp]

/-- Witness for the amended C6 at the concrete state `sC6`. -/
theorem verifyTransfer_missing_path_witness :
    verifyTransfer sC6 rC6 = (false, ["Transfer is not complete"]) := by
  apply verifyTransfer_missing_path sC6 rC6 ⟨2, ["a.txt", "b.txt"]⟩ "b.txt"
  · decide
  · decide
  · decide
  · decide

/-- Counterexample to claim C8: the distinct repository identifiers
`("a", "b:c")` and `("a:b", "c")` share the repo key `"a:b:c"`, so a chunk
delivered under the first creates `FileTransfer` state visible under the
second. -/
theorem receiveChunk_repo_key_collision :
    rA8 ≠ rB8 ∧
    getRepoKey rA8 = getRepoKey rB8 ∧
    lookupTransfer emptyState rB8 "x" = none ∧
    lookupTransfer (receiveChunk emptyState ⟨"x", 0, 2, [1]⟩ rA8) rB8 "x" ≠ none := by
  refine ⟨?_, ?_, ?_, ?_⟩ <;> decide

/-- Claim C8 as amended: for repository identifiers whose repo keys (the
colon-joined `ownerPubkey:repoName` strings) are distinct, delivering a
chunk under one never changes the `FileTransfer` state, manifest, or
pending writes of the other; if in addition neither key contains a slash,
the written files under the other repository's root are unchanged too. -/
theorem receiveChunk_isolated_across_keys (s : BrowserState)
    (repoId rB : RepositoryId) (c : FileChunk)
    (hk : getRepoKey repoId ≠ getRepoKey rB) :
    (receiveChunk s c repoId).transferManifests.lookup (getRepoKey rB)
        = s.transferManifests.lookup (getRepoKey rB) ∧
    (receiveChunk s c repoId).currentTransfers.lookup (getRepoKey rB)
        = s.currentTransfers.lookup (getRepoKey rB) ∧
    (receiveChunk s c repoId).pendingWrites.lookup (getRepoKey rB)
        = s.pendingWrites.lookup (getRepoKey rB) ∧
    (noSlashKey (getRepoKey repoId) = true → noSlashKey (getRepoKey rB) = true →
      filesUnder (receiveChunk s c repoId) rB = filesUnder s rB) := by
  have hB : ((getRepoKey rB) == (getRepoKey repoId)) = false :=
    beq_eq_false_iff_ne.mpr (fun h => hk h.symm)
  have hfile : noSlashKey (getRepoKey repoId) = true →
      noSlashKey (getRepoKey rB) = true →
      listStarts (getRepoPath rB ++ "/").toList
        (normalizeRepoPath c.path repoId).toList = false := by
    intro hA hBk
    unfold normalizeRepoPath
    dsimp only
    have hcat : ∀ a b : String, (a ++ b).toList = a.toList ++ b.toList := by
      intro a b
      simp [String.toList, String.data_append]
    have h1 : (getRepoPath rB ++ "/").toList
        = '/' :: ((getRepoKey rB).toList ++ ['/']) := by
      rw [hcat, getRepoPath_toList]
      rfl
    have h2 : ∀ tail : String, (getRepoPath repoId ++ "/" ++ tail).toList
        = '/' :: ((getRepoKey repoId).toList ++ '/' :: tail.toList) := by
      intro tail
      rw [hcat, hcat, getRepoPath_toList]
      simp
    rw [h1, h2]
    simp only [listStarts, beq_self_eq_true, Bool.true_and]
    apply listStarts_key_ne
    · exact hBk
    · exact hA
    · intro h
      exact hk (String.ext h.symm)
  unfold receiveChunk writeFile
  dsimp only
  split
  · refine ⟨rfl, ?_, ?_, ?_⟩
    · rw [lookup_mapSet, if_neg (by simp [hB])]
    · rw [lookup_mapSet, if_neg (by simp [hB])]
    · intro hA hBk
      unfold filesUnder
      dsimp only
      exact filter_mapSet_of_pred_false _ _ _
        (fun x => listStarts (getRepoPath rB ++ "/").toList x.toList)
        (hfile hA hBk)
  · refine ⟨rfl, ?_, rfl, fun _ _ => rfl⟩
    rw [lookup_mapSet, if_neg (by simp [hB])]

/- ------------------------------------------------------------------ -/
/- Order independence of reassembly (claim C2).                        -/
/- ------------------------------------------------------------------ -/

theorem sorted_keyLT_of_keyLE_nodup (l : List (Nat × List Nat))
    (hs : List.Sorted chunkKeyLE l) (hnd : (l.map Prod.fst).Nodup) :
    List.Sorted chunkKeyLT l := by
  have hne : l.Pairwise (fun a b => a.1 ≠ b.1) := List.pairwise_map.mp hnd
  exact (hs.and hne).imp (fun h => Nat.lt_of_le_of_ne h.1 h.2)

theorem writeFileData_eq_of_perm (l₁ l₂ : List (Nat × List Nat))
    (hp : l₁.Perm l₂) (hnd : (l₁.map Prod.fst).Nodup) :
    writeFileData l₁ = writeFileData l₂ := by
  have hperm : (List.insertionSort chunkKeyLE l₁).Perm
      (List.insertionSort chunkKeyLE l₂) :=
    (List.perm_insertionSort _ _).trans (hp.trans (List.perm_insertionSort _ _).symm)
  have hnd1 : ((List.insertionSort chunkKeyLE l₁).map Prod.fst).Nodup :=
    (((List.perm_insertionSort chunkKeyLE l₁).map Prod.fst).nodup_iff).mpr hnd
  have hnd2 : ((List.insertionSort chunkKeyLE l₂).map Prod.fst).Nodup :=
    ((hperm.map Prod.fst).nodup_iff).mp hnd1
  have heq : List.insertionSort chunkKeyLE l₁ = List.insertionSort chunkKeyLE l₂ :=
    List.eq_of_perm_of_sorted hperm
      (sorted_keyLT_of_keyLE_nodup _ (List.sorted_insertionSort _ _) hnd1)
      (sorted_keyLT_of_keyLE_nodup _ (List.sorted_insertionSort _ _) hnd2)
  unfold writeFileData
  rw [heq]

theorem receiveChunk_step_mid (s : BrowserState) (repoId : RepositoryId)
    (c : FileChunk) (acc : List (Nat × List Nat)) (n j : Nat)
    (hview : lookupTransfer s repoId c.path = some ⟨acc, n, j, false⟩)
    (hnt : ¬ (j + 1 = n)) :
    lookupTransfer (receiveChunk s c repoId) repoId c.path
        = some ⟨mapSet acc c.index c.data, n, j + 1, false⟩ ∧
    (receiveChunk s c repoId).fsFiles = s.fsFiles := by
  unfold lookupTransfer at hview ⊢
  unfold receiveChunk
  dsimp only
  rw [hview]
  dsimp only [Option.getD_some]
  rw [if_neg hnt]
  refine ⟨?_, rfl⟩
  dsimp only
  rw [lookup_mapSet]
  simp only [beq_self_eq_true, if_true, Option.getD_some]
  rw [lookup_mapSet]
  simp [beq_self_eq_true]

theorem receiveChunk_step_last (s : BrowserState) (repoId : RepositoryId)
    (c : FileChunk) (acc : List (Nat × List Nat)) (n j : Nat)
    (hview : lookupTransfer s repoId c.path = some ⟨acc, n, j, false⟩)
    (ht : j + 1 = n) :
    (receiveChunk s c repoId).fsFiles.lookup (normalizeRepoPath c.path repoId)
      = some (writeFileData (mapSet acc c.index c.data)) := by
  unfold lookupTransfer at hview
  unfold receiveChunk writeFile
  dsimp only
  rw [hview]
  dsimp only [Option.getD_some]
  rw [if_pos ht]
  dsimp only
  rw [lookup_mapSet]
  simp [beq_self_eq_true]

theorem receiveChunk_step_first (s : BrowserState) (repoId : RepositoryId)
    (c : FileChunk)
    (hview : lookupTransfer s repoId c.path = none)
    (hnt : ¬ (1 = c.totalChunks)) :
    lookupTransfer (receiveChunk s c repoId) repoId c.path
        = some ⟨[(c.index, c.data)], c.totalChunks, 1, false⟩ ∧
    (receiveChunk s c repoId).fsFiles = s.fsFiles := by
  unfold lookupTransfer at hview ⊢
  unfold receiveChunk
  dsimp only
  rw [hview]
  dsimp only [Option.getD_none]
  rw [if_neg hnt]
  refine ⟨?_, rfl⟩
  dsimp only
  rw [lookup_mapSet]
  simp only [beq_self_eq_true, if_true, Option.getD_some]
  rw [lookup_mapSet]
  simp [beq_self_eq_true, mapSet]

theorem receiveChunk_step_first_last (s : BrowserState) (repoId : RepositoryId)
    (c : FileChunk)
    (hview : lookupTransfer s repoId c.path = none)
    (ht : 1 = c.totalChunks) :
    (receiveChunk s c repoId).fsFiles.lookup (normalizeRepoPath c.path repoId)
      = some (writeFileData [(c.index, c.data)]) := by
  unfold lookupTransfer at hview
  unfold receiveChunk writeFile
  dsimp only
  rw [hview]
  dsimp only [Option.getD_none]
  rw [if_pos ht]
  dsimp only
  rw [lookup_mapSet]
  simp [beq_self_eq_true, mapSet]

theorem deliverChunks_loop (repoId : RepositoryId) (p : String) (n : Nat)
    (rest : List FileChunk) :
    ∀ (s : BrowserState) (acc : List (Nat × List Nat)),
    (∀ c ∈ rest, c.path = p) →
    ((acc.map Prod.fst ++ rest.map FileChunk.index).Nodup) →
    acc.length + rest.length = n →
    rest ≠ [] →
    lookupTransfer s repoId p = some ⟨acc, n, acc.length, false⟩ →
    (deliverChunks s rest repoId).fsFiles.lookup (normalizeRepoPath p repoId)
      = some (writeFileData (acc ++ rest.map (fun c => (c.index, c.data)))) := by
  induction rest with
  | nil => intro s acc _ _ _ hne _; exact absurd rfl hne
  | cons c rest ih =>
    intro s acc hpath hnd hlen hne hview
    have hcp : c.path = p := hpath c (List.mem_cons_self c rest)
    have hci : c.index ∉ acc.map Prod.fst := by
      intro hmem
      exact (List.nodup_append.mp hnd).2.2 hmem (by simp)
    have hmapset : mapSet acc c.index c.data = acc ++ [(c.index, c.data)] :=
      mapSet_of_not_mem acc c.index c.data hci
    cases rest with
    | nil =>
      have ht : acc.length + 1 = n := by simpa using hlen
      have hstep := receiveChunk_step_last s repoId c acc n acc.length
        (by rw [hcp]; exact hview) ht
      rw [hcp] at hstep
      show (receiveChunk s c repoId).fsFiles.lookup (normalizeRepoPath p repoId) = _
      rw [hstep, hmapset]
      simp
    | cons c2 rest2 =>
      have hnt : ¬ (acc.length + 1 = n) := by
        intro h
        rw [← h] at hlen
        simp only [List.length_cons] at hlen
        omega
      have hstep := receiveChunk_step_mid s repoId c acc n acc.length
        (by rw [hcp]; exact hview) hnt
      rw [hcp] at hstep
      have hview2 : lookupTransfer (receiveChunk s c repoId) repoId p
          = some ⟨acc ++ [(c.index, c.data)], n, (acc ++ [(c.index, c.data)]).length, false⟩ := by
        rw [hstep.1, hmapset]
        simp
      have hres := ih (receiveChunk s c repoId) (acc ++ [(c.index, c.data)])
        (fun x hx => hpath x (List.mem_cons_of_mem c hx))
        (by
          simp only [List.map_append, List.map_cons] at hnd ⊢
          simpa using hnd)
        (by
          have hlen2 := hlen
          simp only [List.length_cons] at hlen2
          simp only [List.length_append, List.length_cons, List.length_singleton,
            List.length_nil]
          omega)
        (by simp)
        hview2
      show (deliverChunks (receiveChunk s c repoId) (c2 :: rest2) repoId).fsFiles.lookup
          (normalizeRepoPath p repoId) = _
      rw [hres]
      simp

theorem deliverChunks_assembles (s : BrowserState) (repoId : RepositoryId)
    (p : String) (n : Nat) (l : List FileChunk)
    (hpath : ∀ c ∈ l, c.path = p)
    (htot : ∀ c ∈ l, c.totalChunks = n)
    (hnd : (l.map FileChunk.index).Nodup)
    (hlen : l.length = n)
    (hne : l ≠ [])
    (hstart : lookupTransfer s repoId p = none) :
    (deliverChunks s l repoId).fsFiles.lookup (normalizeRepoPath p repoId)
      = some (writeFileData (l.map (fun c => (c.index, c.data)))) := by
  cases l with
  | nil => exact absurd rfl hne
  | cons c rest =>
    have hcp : c.path = p := hpath c (List.mem_cons_self c rest)
    have hct : c.totalChunks = n := htot c (List.mem_cons_self c rest)
    cases rest with
    | nil =>
      have h1 : (1 : Nat) = c.totalChunks := by
        rw [hct]; simpa using hlen
      have hstep := receiveChunk_step_first_last s repoId c
        (by rw [hcp]; exact hstart) h1
      rw [hcp] at hstep
      exact hstep
    | cons c2 rest2 =>
      have hnt : ¬ ((1 : Nat) = c.totalChunks) := by
        rw [hct, ← hlen]
        simp only [List.length_cons]
        omega
      have hstep := receiveChunk_step_first s repoId c
        (by rw [hcp]; exact hstart) hnt
      rw [hcp] at hstep
      have hview2 : lookupTransfer (receiveChunk s c repoId) repoId p
          = some ⟨[(c.index, c.data)], n,
              ([(c.index, c.data)] : List (Nat × List Nat)).length, false⟩ := by
        rw [hstep.1, hct]
        simp
      have hres := deliverChunks_loop repoId p n (c2 :: rest2)
        (receiveChunk s c repoId) [(c.index, c.data)]
        (fun x hx => hpath x (List.mem_cons_of_mem c hx))
        (by
          simp only [List.map_cons] at hnd
          simpa using hnd)
        (by
          have hlen2 := hlen
          simp only [List.length_cons] at hlen2
          simp only [List.length_singleton, List.length_cons, List.length_nil]
          omega)
        (by simp)
        hview2
      show (deliverChunks (receiveChunk s c repoId) (c2 :: rest2) repoId).fsFiles.lookup
          (normalizeRepoPath p repoId) = _
      rw [hres]
      simp

/-- Claim C2: for a file whose chunks carry distinct indices
`0..totalChunks-1`, delivering them to `receiveChunk` in any permutation of
index order (with the pending writes awaited, as this model does) produces
a written file byte-identical to the ascending-order delivery: the write
concatenates the chunk map in index order, not arrival order. -/
theorem receiveChunk_order_insensitive (s : BrowserState) (repoId : RepositoryId)
    (p : String) (n : Nat) (d : Nat → List Nat) (l : List FileChunk)
    (hstart : lookupTransfer s repoId p = none)
    (hperm : l.Perm ((List.range n).map (fun i => ⟨p, i, n, d i⟩))) :
    (deliverChunks s l repoId).fsFiles.lookup (normalizeRepoPath p repoId)
      = (deliverChunks s ((List.range n).map (fun i => ⟨p, i, n, d i⟩)) repoId).fsFiles.lookup
          (normalizeRepoPath p repoId) := by
  cases n with
  | zero =>
    have : l = [] := hperm.eq_nil
    rw [this]
    rfl
  | succ m =>
    have hasc_path : ∀ c ∈ (List.range (m + 1)).map
        (fun i => (⟨p, i, m + 1, d i⟩ : FileChunk)), c.path = p := by
      intro c hc
      obtain ⟨i, -, rfl⟩ := List.mem_map.mp hc
      rfl
    have hasc_tot : ∀ c ∈ (List.range (m + 1)).map
        (fun i => (⟨p, i, m + 1, d i⟩ : FileChunk)), c.totalChunks = m + 1 := by
      intro c hc
      obtain ⟨i, -, rfl⟩ := List.mem_map.mp hc
      rfl
    have hasc_idx : (((List.range (m + 1)).map
        (fun i => (⟨p, i, m + 1, d i⟩ : FileChunk))).map FileChunk.index)
          = List.range (m + 1) := by
      rw [List.map_map]
      exact List.map_id _
    have hasc_nd : (((List.range (m + 1)).map
        (fun i => (⟨p, i, m + 1, d i⟩ : FileChunk))).map FileChunk.index).Nodup := by
      rw [hasc_idx]
      exact List.nodup_range _
    have hasc_len : ((List.range (m + 1)).map
        (fun i => (⟨p, i, m + 1, d i⟩ : FileChunk))).length = m + 1 := by
      simp
    have hasc_ne : (List.range (m + 1)).map
        (fun i => (⟨p, i, m + 1, d i⟩ : FileChunk)) ≠ [] := by
      simp [List.range_succ]
    have hl := deliverChunks_assembles s repoId p (m + 1) l
      (fun c hc => hasc_path c (hperm.mem_iff.mp hc))
      (fun c hc => hasc_tot c (hperm.mem_iff.mp hc))
      (((hperm.map FileChunk.index).nodup_iff).mpr hasc_nd)
      (hperm.length_eq.trans hasc_len)
      (by intro h; rw [h] at hperm; exact hasc_ne hperm.symm.eq_nil)
      hstart
    have hr := deliverChunks_assembles s repoId p (m + 1)
      ((List.range (m + 1)).map (fun i => ⟨p, i, m + 1, d i⟩))
      hasc_path hasc_tot hasc_nd hasc_len hasc_ne hstart
    rw [hl, hr]
    congr 1
    apply writeFileData_eq_of_perm
    · exact hperm.map (fun c => (c.index, c.data))
    · rw [List.map_map]
      exact ((hperm.map FileChunk.index).nodup_iff).mpr hasc_nd

/-- Witness for C2: the two chunks of a two-chunk file delivered in
descending index order produce the same written bytes as ascending order. -/
theorem receiveChunk_order_insensitive_witness :
    (deliverChunks emptyState
        [⟨"w", 1, 2, [1]⟩, ⟨"w", 0, 2, [0]⟩] rW).fsFiles.lookup
      (normalizeRepoPath "w" rW)
      = (deliverChunks emptyState
          ((List.range 2).map (fun i => ⟨"w", i, 2, [i]⟩)) rW).fsFiles.lookup
        (normalizeRepoPath "w" rW) := by
  exact receiveChunk_order_insensitive emptyState rW "w" 2 (fun i => [i])
    [⟨"w", 1, 2, [1]⟩, ⟨"w", 0, 2, [0]⟩] (by decide) (by decide)

/-- Witness for the amended C8: a delivery under `("u", "v")` leaves the
state of `("w", "z")` untouched. -/
theorem receiveChunk_isolated_across_keys_witness :
    (receiveChunk emptyState ⟨"x", 0, 1, [9]⟩ ⟨"u", "v"⟩).transferManifests.lookup
        (getRepoKey ⟨"w", "z"⟩)
      = emptyState.transferManifests.lookup (getRepoKey ⟨"w", "z"⟩) ∧
    (receiveChunk emptyState ⟨"x", 0, 1, [9]⟩ ⟨"u", "v"⟩).currentTransfers.lookup
        (getRepoKey ⟨"w", "z"⟩)
      = emptyState.currentTransfers.lookup (getRepoKey ⟨"w", "z"⟩) ∧
    (receiveChunk emptyState ⟨"x", 0, 1, [9]⟩ ⟨"u", "v"⟩).pendingWrites.lookup
        (getRepoKey ⟨"w", "z"⟩)
      = emptyState.pendingWrites.lookup (getRepoKey ⟨"w", "z"⟩) ∧
    (noSlashKey (getRepoKey ⟨"u", "v"⟩) = true →
      noSlashKey (getRepoKey ⟨"w", "z"⟩) = true →
      filesUnder (receiveChunk emptyState ⟨"x", 0, 1, [9]⟩ ⟨"u", "v"⟩) ⟨"w", "z"⟩
        = filesUnder emptyState ⟨"w", "z"⟩) := by
  exact receiveChunk_isolated_across_keys emptyState ⟨"u", "v"⟩ ⟨"w", "z"⟩
    ⟨"x", 0, 1, [9]⟩ (by decide)

/- ------------------------------------------------------------------ -/
/- Sender-side lemmas and claim theorems.                              -/
/- ------------------------------------------------------------------ -/

theorem fileChunksAux_map_index (p : String) (total : Nat) (ds : List (List Nat)) :
    ∀ i, (fileChunksAux p total i ds).map FileChunk.index = List.range' i ds.length := by
  induction ds with
  | nil => intro i; rfl
  | cons d ds ih =>
    intro i
    simp only [fileChunksAux, List.map_cons, ih, List.length_cons]
    rfl

theorem fileChunksAux_length (p : String) (total : Nat) (ds : List (List Nat)) :
    ∀ i, (fileChunksAux p total i ds).length = ds.length := by
  induction ds with
  | nil => intro i; rfl
  | cons d ds ih =>
    intro i
    simp only [fileChunksAux, List.length_cons, ih]

theorem fileChunksAux_path (p : String) (total : Nat) (ds : List (List Nat)) :
    ∀ i, ∀ c ∈ fileChunksAux p total i ds, c.path = p := by
  induction ds with
  | nil => intro i c hc; exact absurd hc (List.not_mem_nil c)
  | cons d ds ih =>
    intro i c hc
    rcases List.mem_cons.mp hc with rfl | hc2
    · rfl
    · exact ih (i + 1) c hc2

theorem fileChunks_index_range (C : Nat) (p : String) (data : List Nat) :
    (fileChunks C p data).map FileChunk.index
      = List.range (fileChunks C p data).length := by
  unfold fileChunks
  rw [fileChunksAux_map_index, fileChunksAux_length, List.range_eq_range']

/-- Claim C3 (code-bug evidence): streaming `repoC3`, whose `empty.txt` is
zero bytes, lists the file in the manifest but emits NO chunk for it —
`Math.ceil(0 / chunkSize) = 0` and the very first read returns zero bytes,
ending the loop — instead of the single zero-length chunk with
`totalChunks = 1` the claim (and the spec's round-trip requirement)
demands.  The receiver consequently can never complete such a transfer. -/
theorem streamRepository_zero_byte_no_chunk :
    (streamRepository repoC3 DEFAULT_OPTIONS).2 = none ∧
    "empty.txt" ∈ headManifestFiles (streamRepository repoC3 DEFAULT_OPTIONS).1 ∧
    ((streamRepository repoC3 DEFAULT_OPTIONS).1.filter (isChunkFor "empty.txt")).length
      = 0 ∧
    fileChunks DEFAULT_OPTIONS.chunkSize "empty.txt" [] = [] ∧
    totalChunksOf DEFAULT_OPTIONS.chunkSize 0 = 0 := by
  refine ⟨?_, ?_, ?_, ?_, ?_⟩ <;> decide

/-- Claim C4: `streamRepository` yields exactly: first a manifest listing
every enumerated file's relative path, then every chunk of every enumerated
file — files in manifest order, chunk indices strictly ascending from 0,
each chunk carrying its file's path — and finally the completion marker;
and when validation reports an invalid repository the sequence raises the
invalid-repository error before yielding any element. -/
theorem streamRepository_shape (repo : HostFs) (opts : GitBridgeOptions) :
    (∀ v, validateRepo repo opts = .ok v → v.isValid = false →
      streamRepository repo opts = ([], some GitErrorCode.INVALID_REPOSITORY)) ∧
    (∀ v, validateRepo repo opts = .ok v → v.isValid = true →
      (streamRepository repo opts).2 = none ∧
      (streamRepository repo opts).1
        = StreamMsg.manifest ⟨(listFiles repo opts).length,
            (listFiles repo opts).map (fun f => makeRelativePath f.1)⟩
          :: (listFiles repo opts).flatMap (fun f =>
              (fileChunks opts.chunkSize (makeRelativePath f.1) f.2).map StreamMsg.chunk)
          ++ [StreamMsg.complete] ∧
      (∀ f ∈ listFiles repo opts,
        ((fileChunks opts.chunkSize (makeRelativePath f.1) f.2).map FileChunk.index)
          = List.range (fileChunks opts.chunkSize (makeRelativePath f.1) f.2).length ∧
        (∀ c ∈ fileChunks opts.chunkSize (makeRelativePath f.1) f.2,
          c.path = makeRelativePath f.1))) := by
  constructor
  · intro v hv hfalse
    unfold streamRepository
    rw [hv]
    dsimp only
    rw [if_pos hfalse]
  · intro v hv htrue
    have hne : ¬ (v.isValid = false) := by rw [htrue]; decide
    refine ⟨?_, ?_, ?_⟩
    · unfold streamRepository
      rw [hv]
      dsimp only
      rw [if_neg hne]
    · unfold streamRepository
      rw [hv]
      dsimp only
      rw [if_neg hne]
      rfl
    · intro f hf
      exact ⟨fileChunks_index_range _ _ _,
        fun c hc => fileChunksAux_path _ _ _ 0 c hc⟩

/-- Witness for C4 on the concrete valid repository `repoC4`. -/
theorem streamRepository_shape_witness :
    (streamRepository repoC4 DEFAULT_OPTIONS).2 = none ∧
    (streamRepository repoC4 DEFAULT_OPTIONS).1
      = StreamMsg.manifest ⟨(listFiles repoC4 DEFAULT_OPTIONS).length,
          (listFiles repoC4 DEFAULT_OPTIONS).map (fun f => makeRelativePath f.1)⟩
        :: (listFiles repoC4 DEFAULT_OPTIONS).flatMap (fun f =>
            (fileChunks DEFAULT_OPTIONS.chunkSize (makeRelativePath f.1) f.2).map
              StreamMsg.chunk)
        ++ [StreamMsg.complete] ∧
    (∀ f ∈ listFiles repoC4 DEFAULT_OPTIONS,
      ((fileChunks DEFAULT_OPTIONS.chunkSize (makeRelativePath f.1) f.2).map
          FileChunk.index)
        = List.range (fileChunks DEFAULT_OPTIONS.chunkSize
            (makeRelativePath f.1) f.2).length ∧
      (∀ c ∈ fileChunks DEFAULT_OPTIONS.chunkSize (makeRelativePath f.1) f.2,
        c.path = makeRelativePath f.1)) := by
  exact (streamRepository_shape repoC4 DEFAULT_OPTIONS).2 ⟨true, []⟩ rfl rfl

/-- Counterexample to claim C7: `repoC7` under `optsC7` fails three checks
at once — no `.git` entry, size `3 > maxRepoSize 1`, and no read permission
— yet `validateRepo` returns only the first failing check's error, not one
entry per failing check. -/
theorem validateRepo_first_error_only :
    validateRepo repoC7 optsC7 = .ok ⟨false, ["Path is not a git repository"]⟩ ∧
    statGitEntry repoC7.entries = none ∧
    getRepoSize repoC7 optsC7 > optsC7.maxRepoSize ∧
    repoC7.readable = false := by
  refine ⟨rfl, ?_, ?_, ?_⟩ <;> decide

/-- Claim C7 as amended: `validateRepo` short-circuits at the first failing
check (order: directory, git metadata, size, permissions), so its returned
`errors` list never has more than one entry — never one per failing check. -/
theorem validateRepo_at_most_one_error (repo : HostFs) (opts : GitBridgeOptions)
    (res : ValidationResult) (h : validateRepo repo opts = .ok res) :
    res.errors.length ≤ 1 := by
  unfold validateRepo at h
  by_cases h1 : (!repo.rootExists) = true
  · rw [if_pos h1] at h; cases h
  · rw [if_neg h1] at h
    by_cases h2 : (!repo.rootIsDir) = true
    · rw [if_pos h2] at h
      injection h with h3
      rw [← h3]
      simp
    · rw [if_neg h2] at h
      cases hg : statGitEntry repo.entries with
      | none =>
        rw [hg] at h
        injection h with h3
        rw [← h3]
        simp
      | some b =>
        cases b with
        | false =>
          rw [hg] at h
          injection h with h3
          rw [← h3]
          simp
        | true =>
          rw [hg] at h
          by_cases h4 : getRepoSize repo opts > opts.maxRepoSize
          · rw [if_pos h4] at h
            injection h with h3
            rw [← h3]
            simp
          · rw [if_neg h4] at h
            by_cases h5 : (!repo.readable) = true
            · rw [if_pos h5] at h
              injection h with h3
              rw [← h3]
              decide
            · rw [if_neg h5] at h
              injection h with h3
              rw [← h3]
              decide

/-- Witness for the amended C7 at the triply failing `repoC7`. -/
theorem validateRepo_at_most_one_error_witness :
    (⟨false, ["Path is not a git repository"]⟩ : ValidationResult).errors.length ≤ 1 :=
  validateRepo_at_most_one_error repoC7 optsC7
    ⟨false, ["Path is not a git repository"]⟩ rfl

/-- Claim C9 (code-bug evidence): with `includeGitHistory := false` the
walk still enumerates `.git/HEAD` — `listFilesRecursive` never consults the
option and skips only `node_modules` — so the `.git` file reaches both the
manifest and the chunk stream. -/
theorem includeGitHistory_not_consulted :
    optsC9.includeGitHistory = false ∧
    (listFiles repoC9 optsC9).map Prod.fst = [".git/HEAD", "a.txt"] ∧
    ".git/HEAD" ∈ headManifestFiles (streamRepository repoC9 optsC9).1 ∧
    ((streamRepository repoC9 optsC9).1.filter (isChunkFor ".git/HEAD")).length = 1 := by
  refine ⟨?_, ?_, ?_, ?_⟩ <;> decide

end Gitnestr
